import Mathlib

/-!
Verification of the WASM section scanner of `client/web_size.py` and the
GLB chunk codec and bone remapper of `scripts/remap_slide_animations.py`.

Byte streams are modelled as `List Nat`, each element one byte value
(real files always have values below 256).  File cursors are explicit
positions into the list; Python file objects advance their cursor by the
number of bytes actually returned, which `List.take`/`List.drop` model
exactly.  Fallible operations return `Option` (`none` = a raised Python
exception).
-/

namespace WasmFantasia

/-- Embedding of `read_leb128` (client/web_size.py, lines 18-25), acting
on the byte stream that starts at the cursor.  Returns
`some (value, bytesConsumed)` on success, and `none` when the input is
exhausted before a byte with clear high bit appears (the Python code
raises `IndexError` from `f.read(1)[0]` there).  `val` and `shift` are
the loop accumulators, both 0 at entry. -/
def read_leb128 : List Nat → Nat → Nat → Option (Nat × Nat)
  | [], _, _ => none
  | b :: rest, val, shift =>
    let v := val ||| ((b &&& 0x7F) <<< shift)
    if b &&& 0x80 = 0 then some (v, 1)
    else
      match read_leb128 rest v (shift + 7) with
      | none => none
      | some (value, k) => some (value, k + 1)

/-- Fuel-driven worker for the standard unsigned LEB128 encoder (the
spec's reference encoding for claim C8; the repository has no encoder).
The fuel only bounds the recursion depth: `n` needs at most `n + 1`
steps because `n / 128 < n` for `n ≥ 128`. -/
def lebEncodeF : Nat → Nat → List Nat
  | 0, _ => []
  | f + 1, n => if n < 128 then [n] else (n % 128 + 128) :: lebEncodeF f (n / 128)

/-- Standard unsigned LEB128 encoding of `n`: 7 value bits per byte,
low-order groups first, high bit set on every byte except the last. -/
def leb128Encode (n : Nat) : List Nat := lebEncodeF (n + 1) n

/-- Keys of the `sections` dictionary built by `wasm_sections`.  The
Python code keys by display string: `SECTION_NAMES.get(sid, "?(sid)")`
for a non-custom section (injective in `sid`, since the twelve table
names are distinct and distinct from every `?(id)` label) and
`"Custom(name)"` for a custom section, where `name` is the lossy UTF-8
decoding of the raw name bytes.  We key by the section id, resp. the
raw name bytes: the lossy decode can only merge keys that carry equal
byte strings after replacement, which renames/merges keys but leaves
every accumulated total and their overall sum unchanged, and no claim
depends on the display string itself. -/
inductive SectionKey where
  | std (sid : Nat) : SectionKey
  | custom (name : List Nat) : SectionKey
deriving DecidableEq, Repr

/-- Embedding of `sections[name] = sections.get(name, 0) + size`. -/
def addSize : List (SectionKey × Nat) → SectionKey → Nat → List (SectionKey × Nat)
  | [], k, v => [(k, v)]
  | (k1, v1) :: rest, k, v =>
    if k1 = k then (k1, v1 + v) :: rest else (k1, v1) :: addSize rest k v

/-- Sum of all sizes recorded in the mapping. -/
def sumVals (m : List (SectionKey × Nat)) : Nat := (m.map Prod.snd).sum

/-- One iteration of the `wasm_sections` loop body after the section id
byte `sid` has been read at position `pos` (client/web_size.py, lines
34-42).  Returns the dictionary entry together with the cursor position
for the next iteration.  `f.seek(k, 1)` is a relative seek: Python
raises `OSError` if the resulting absolute position is negative (hence
the `Int` arithmetic and the `tgt < 0` guard) and allows seeking past
the end of the file. -/
def scanStep (data : List Nat) (pos sid : Nat) : Option ((SectionKey × Nat) × Nat) :=
  match read_leb128 (data.drop (pos + 1)) 0 0 with
  | none => none
  | some (size, len1) =>
    let p1 := pos + 1 + len1
    if sid = 0 then
      match read_leb128 (data.drop p1) 0 0 with
      | none => none
      | some (nlen, len2) =>
        let p2 := p1 + len2
        let raw := (data.drop p2).take nlen
        let p3 := p2 + raw.length
        let tgt : Int := (p3 : Int) + ((size : Int) - (raw.length : Int) - 1)
        if tgt < 0 then none
        else some ((SectionKey.custom raw, size), tgt.toNat)
    else
      some ((SectionKey.std sid, size), p1 + size)

/-- The `while b := f.read(1)` loop of `wasm_sections`.  The fuel only
bounds the number of iterations; every iteration moves the cursor
forward by at least two bytes (one id byte plus at least one varint
byte plus a never-negative net seek), so `data.length + 1` iterations
are always enough and the fuel is inexhaustible on the inputs of every
theorem below. -/
def wasmLoop (data : List Nat) : Nat → Nat → List (SectionKey × Nat) → Option (List (SectionKey × Nat))
  | 0, _, _ => none
  | fuel + 1, pos, acc =>
    match data[pos]? with
    | none => some acc
    | some sid =>
      match scanStep data pos sid with
      | none => none
      | some ((key, size), newPos) => wasmLoop data fuel newPos (addSize acc key size)

/-- Embedding of `wasm_sections` (client/web_size.py, lines 28-44):
skip the 8-byte preamble (`f.read(8)`, unvalidated), then scan section
headers until end of input. -/
def wasm_sections (data : List Nat) : Option (List (SectionKey × Nat)) :=
  wasmLoop data (data.length + 1) 8 []

/-- Description of one well-formed WASM section: an id byte and a
payload; the encoded form declares the payload length as a LEB128
varint. -/
structure WasmSec where
  sid : Nat
  payload : List Nat
deriving DecidableEq, Repr

/-- Byte encoding of a section: id byte, size varint, payload. -/
def sectionBytes (s : WasmSec) : List Nat :=
  s.sid :: (leb128Encode s.payload.length ++ s.payload)

/-- Well-formedness of a section, following the spec (section 3 and
4.2): the id is a byte, and a custom section (id 0) starts its payload
with a LEB128-prefixed name.  The name-length restriction to one varint
byte (name shorter than 128 bytes) is the regime in which the scanner's
cursor arithmetic is exact; see claim C3 for the failure beyond it. -/
def wfSec (s : WasmSec) : Prop :=
  s.sid < 256 ∧
  (s.sid = 0 → ∃ name rest, s.payload = name.length :: (name ++ rest) ∧ name.length < 128)

end WasmFantasia

namespace WasmFantasia

/-! ### GLB chunk codec (scripts/remap_slide_animations.py, lines 73-125)

The JSON layer (`json.dumps` / `json.loads`) is the Python standard
library, not repository code; the codec is therefore parametrised by an
abstract document type `Doc` with a serializer `dumps` and a parser
`loads`.  Theorems state exactly the properties of `loads`/`dumps` they
rely on (e.g. that a compact serialization followed by trailing ASCII
spaces parses back), and witnesses instantiate them with a small
concrete executable codec. -/

/-- Bytes of the ASCII magic `glTF`. -/
def glTFmagic : List Nat := [103, 108, 84, 70]

/-- Bytes of the JSON chunk tag `JSON`. -/
def jsonTag : List Nat := [74, 83, 79, 78]

/-- Bytes of the binary chunk tag `BIN\x00`. -/
def binTag : List Nat := [66, 73, 78, 0]

/-- Little-endian 4-byte encoding, `struct.pack("<I", x)` for
`x < 2 ^ 32` (beyond that Python raises `struct.error`; the writer
guards the range explicitly). -/
def le32 (x : Nat) : List Nat :=
  [x % 256, x / 256 % 256, x / 65536 % 256, x / 16777216 % 256]

/-- Embedding of `struct.unpack("<I", f.read(4))[0]` at position `pos`:
fails (`struct.error`) unless 4 bytes are available. -/
def readLe32 (data : List Nat) (pos : Nat) : Option Nat :=
  match (data.drop pos).take 4 with
  | [b0, b1, b2, b3] => some (b0 + 256 * b1 + 65536 * b2 + 16777216 * b3)
  | _ => none

/-- Right-pad with byte `pad` to a multiple of 4.  The Python writer
appends one `pad` byte at a time while `len % 4 != 0`, which appends
exactly `(4 - len % 4) % 4` bytes. -/
def pad4 (pad : Nat) (bs : List Nat) : List Nat :=
  bs ++ List.replicate ((4 - bs.length % 4) % 4) pad

/-- Embedding of `write_glb` (scripts/remap_slide_animations.py, lines
98-125), minus the actual file write: returns the byte string written.
`json.dumps(json_data, separators=(",", ":")).encode("utf-8")` is
`dumps d`; JSON is padded with ASCII spaces (32), the binary chunk with
zero bytes.  Every packed value is at most `total`, so guarding
`total < 2 ^ 32` models all four `struct.pack` range checks. -/
def write_glb {Doc : Type} (dumps : Doc → List Nat) (d : Doc) (binChunk : List Nat) : Option (List Nat) :=
  let jsonBytes := pad4 32 (dumps d)
  let binBytes := pad4 0 binChunk
  let total := 12 + 8 + jsonBytes.length + 8 + binBytes.length
  if total < 4294967296 then
    some (glTFmagic ++ le32 2 ++ le32 total ++ le32 jsonBytes.length ++ jsonTag ++
      jsonBytes ++ le32 binBytes.length ++ binTag ++ binBytes)
  else none

/-- Embedding of `read_glb` (scripts/remap_slide_animations.py, lines
73-95).  Cursor positions follow the Python reads exactly: the two
4-byte type-tag reads advance by the bytes actually available and are
never validated; `f.read(n)` for the chunk bodies returns at most `n`
bytes.  Failure points are: magic mismatch (`ValueError`), a 4-byte
integer field that cannot be filled (`struct.error`), and a JSON body
that does not parse (`json.JSONDecodeError`). -/
def read_glb {Doc : Type} (loads : List Nat → Option Doc) (data : List Nat) : Option (Doc × List Nat) :=
  if data.take 4 = glTFmagic then
    match readLe32 data 4 with
    | none => none
    | some _version =>
      match readLe32 data 8 with
      | none => none
      | some total =>
        match readLe32 data 12 with
        | none => none
        | some jsonLength =>
          let p1 := 16 + ((data.drop 16).take 4).length
          let jsonBytes := (data.drop p1).take jsonLength
          match loads jsonBytes with
          | none => none
          | some jsonData =>
            let p2 := p1 + jsonBytes.length
            if p2 < total then
              match readLe32 data p2 with
              | none => none
              | some binLength =>
                let p3 := p2 + 4 + ((data.drop (p2 + 4)).take 4).length
                some (jsonData, (data.drop p3).take binLength)
            else some (jsonData, [])
  else none

/-- Concrete toy document codec used by witnesses: document `n` is
serialized as `n + 1` copies of the ASCII digit `1`. -/
def toyDumps (n : Nat) : List Nat := List.replicate (n + 1) 49

/-- Parser for the toy codec: a nonempty run of `1` digits followed
only by ASCII spaces parses back to the run length minus one, so the
codec tolerates the trailing pad spaces exactly as `json.loads` does. -/
def toyLoads (bs : List Nat) : Option Nat :=
  let ones := bs.takeWhile (fun b => b == 49)
  let rest := bs.dropWhile (fun b => b == 49)
  if 1 ≤ ones.length ∧ rest.all (fun b => b == 32) then some (ones.length - 1) else none

/-- The JSON chunk bytes that `read_glb` hands to the parser when the
JSON chunk length field decoded to `jsonLength`: the cursor stands
behind the 12-byte header, the 4-byte JSON length field and the JSON
type tag read (which advances by the bytes actually available), and
`f.read(jsonLength)` returns at most `jsonLength` bytes from there. -/
def jsonChunkBytes (data : List Nat) (jsonLength : Nat) : List Nat :=
  (data.drop (16 + ((data.drop 16).take 4).length)).take jsonLength

/-- The cursor position (`f.tell()`) of `read_glb` after the JSON chunk
has been read, for a decoded JSON chunk length `jsonLength`. -/
def tellAfterJson (data : List Nat) (jsonLength : Nat) : Nat :=
  16 + ((data.drop 16).take 4).length + (jsonChunkBytes data jsonLength).length

end WasmFantasia

namespace WasmFantasia

/-! ### Bone-index remapper (scripts/remap_slide_animations.py, lines 128-183)

The remapper works on the decoded JSON document.  Only the fields the
code reads or writes are modelled: a node contributes only its optional
`name`; a channel only its optional `target.node` index (a channel
without a `target` key behaves like one without a node index: the code
then mutates a fresh dictionary that is dropped).  The surrounding file
input/output and prints of `remap_animations` are elided; the function
returns the rewritten document and the reported remapped-channel
count. -/

/-- Animation channel: the optional `target.node` index. -/
structure Channel where
  node : Option Nat
deriving DecidableEq, Repr

/-- Animation: optional `name` (only printed) and its channel list. -/
structure Anim where
  name : Option String
  channels : List Channel
deriving DecidableEq, Repr

/-- Decoded GLB document: node names and animations. -/
structure GlbDoc where
  nodes : List (Option String)
  animations : List Anim
deriving DecidableEq, Repr

/-- The fixed v2-to-v1 bone name table `BONE_MAP` (lines 13-70). -/
def BONE_MAP : List (String × String) := [
  ("pelvis", "DEF-hips"),
  ("spine_01", "DEF-spine001"),
  ("spine_02", "DEF-spine002"),
  ("spine_03", "DEF-spine003"),
  ("neck_01", "DEF-neck"),
  ("Head", "DEF-head"),
  ("clavicle_l", "DEF-shoulderL"),
  ("clavicle_r", "DEF-shoulderR"),
  ("upperarm_l", "DEF-upper_armL"),
  ("upperarm_r", "DEF-upper_armR"),
  ("lowerarm_l", "DEF-forearmL"),
  ("lowerarm_r", "DEF-forearmR"),
  ("hand_l", "DEF-handL"),
  ("hand_r", "DEF-handR"),
  ("thigh_l", "DEF-thighL"),
  ("thigh_r", "DEF-thighR"),
  ("calf_l", "DEF-shinL"),
  ("calf_r", "DEF-shinR"),
  ("foot_l", "DEF-footL"),
  ("foot_r", "DEF-footR"),
  ("ball_l", "DEF-toeL"),
  ("ball_r", "DEF-toeR"),
  ("thumb_01_l", "DEF-thumb01L"),
  ("thumb_02_l", "DEF-thumb02L"),
  ("thumb_03_l", "DEF-thumb03L"),
  ("index_01_l", "DEF-f_index01L"),
  ("index_02_l", "DEF-f_index02L"),
  ("index_03_l", "DEF-f_index03L"),
  ("middle_01_l", "DEF-f_middle01L"),
  ("middle_02_l", "DEF-f_middle02L"),
  ("middle_03_l", "DEF-f_middle03L"),
  ("ring_01_l", "DEF-f_ring01L"),
  ("ring_02_l", "DEF-f_ring02L"),
  ("ring_03_l", "DEF-f_ring03L"),
  ("pinky_01_l", "DEF-f_pinky01L"),
  ("pinky_02_l", "DEF-f_pinky02L"),
  ("pinky_03_l", "DEF-f_pinky03L"),
  ("thumb_01_r", "DEF-thumb01R"),
  ("thumb_02_r", "DEF-thumb02R"),
  ("thumb_03_r", "DEF-thumb03R"),
  ("index_01_r", "DEF-f_index01R"),
  ("index_02_r", "DEF-f_index02R"),
  ("index_03_r", "DEF-f_index03R"),
  ("middle_01_r", "DEF-f_middle01R"),
  ("middle_02_r", "DEF-f_middle02R"),
  ("middle_03_r", "DEF-f_middle03R"),
  ("ring_01_r", "DEF-f_ring01R"),
  ("ring_02_r", "DEF-f_ring02R"),
  ("ring_03_r", "DEF-f_ring03R"),
  ("pinky_01_r", "DEF-f_pinky01R"),
  ("pinky_02_r", "DEF-f_pinky02R"),
  ("pinky_03_r", "DEF-f_pinky03R"),
  ("root", "root")]

/-- Embedding of the dictionary comprehension
`name_to_idx = {node.get("name"): i for i, node in enumerate(nodes)}`,
queried at a string key: the resulting index is the last position
whose node carries exactly that name (later entries overwrite earlier
ones).  The comprehension also maps the key `None` for nameless nodes,
but every lookup performed by the code uses a `BONE_MAP` string, so the
`None` entry is never consulted. -/
def nameToIdx : List (Option String) → String → Option Nat
  | [], _ => none
  | n :: rest, s =>
    match nameToIdx rest s with
    | some j => some (j + 1)
    | none => if n = some s then some 0 else none

/-- Python dictionary insertion `m[k] = v`: overwrite the existing
entry for `k` in place, else append. -/
def dictInsert : List (Nat × Nat) → Nat → Nat → List (Nat × Nat)
  | [], k, v => [(k, v)]
  | (k1, v1) :: rest, k, v =>
    if k1 = k then (k, v) :: rest else (k1, v1) :: dictInsert rest k v

/-- Dictionary lookup (keys are unique by construction of
`dictInsert`). -/
def lookupIdx : List (Nat × Nat) → Nat → Option Nat
  | [], _ => none
  | (k1, v1) :: rest, k => if k1 = k then some v1 else lookupIdx rest k

/-- Embedding of the `v2_to_v1_idx` construction (lines 140-143): for
each `BONE_MAP` pair whose two names both occur among the node names,
map the v2 node index to the v1 node index. -/
def buildMap (nodes : List (Option String)) : List (Nat × Nat) :=
  BONE_MAP.foldl
    (fun m p =>
      match nameToIdx nodes p.1, nameToIdx nodes p.2 with
      | some a, some b => dictInsert m a b
      | _, _ => m)
    []

/-- Test `node_idx in v2_to_v1_idx` (a missing `target.node` is `None`,
never a key of the integer-keyed dictionary). -/
def memKey (m : List (Nat × Nat)) : Option Nat → Bool
  | some k => (lookupIdx m k).isSome
  | none => false

/-- Rewrite of one channel inside an affected animation (lines
165-174): replace a mapped target index, leave anything else alone. -/
def remapChannel (m : List (Nat × Nat)) (c : Channel) : Channel :=
  match c.node with
  | some k =>
    match lookupIdx m k with
    | some v => { node := some v }
    | none => c
  | none => c

/-- Per-animation step (lines 149-174): an animation is rewritten only
if some channel target is a key of the map (`uses_v2_bones`); the
returned count is the number of matched channels of the rewrite loop. -/
def remapAnim (m : List (Nat × Nat)) (a : Anim) : Anim × Nat :=
  if a.channels.any (fun c => memKey m c.node) then
    ({ a with channels := a.channels.map (remapChannel m) },
     (a.channels.filter (fun c => memKey m c.node)).length)
  else (a, 0)

/-- Embedding of the document transformation of `remap_animations`
(lines 128-183): build the index map from the node names, rewrite every
affected animation, and report the total number of remapped channels. -/
def remap_animations (d : GlbDoc) : GlbDoc × Nat :=
  let m := buildMap d.nodes
  ({ d with animations := d.animations.map (fun a => (remapAnim m a).1) },
   (d.animations.map (fun a => (remapAnim m a).2)).sum)

end WasmFantasia

namespace WasmFantasia

/-! ### LEB128 lemmas -/

theorem and127_eq_mod (b : Nat) : b &&& 0x7F = b % 128 := by
  have h : (0x7F : Nat) = 2 ^ 7 - 1 := by norm_num
  rw [h, Nat.and_pow_two_sub_one_eq_mod]

theorem and128_of_lt {b : Nat} (h : b < 128) : b &&& 0x80 = 0 := by
  have h1 : (0x80 : Nat) = 2 ^ 7 := by norm_num
  have h2 : b < 2 ^ 7 := by omega
  rw [h1, Nat.and_two_pow, Nat.testBit_lt_two_pow h2]
  simp

theorem and128_of_ge {b : Nat} (h1 : 128 ≤ b) (h2 : b < 256) : b &&& 0x80 ≠ 0 := by
  have e : (0x80 : Nat) = 2 ^ 7 := by norm_num
  rw [e, Nat.and_two_pow]
  have hd : b / 2 ^ 7 = 1 := by omega
  have ht : b.testBit 7 = true := by
    rw [Nat.testBit_to_div_mod]
    simp only [decide_eq_true_eq]
    omega
  simp [ht]

theorem or_shift_merge (n shift : Nat) :
    ((n % 128) <<< shift) ||| ((n / 128) <<< (shift + 7)) = n <<< shift := by
  have h128 : (128 : Nat) = 2 ^ 7 := by norm_num
  have hdiv : n / 128 = n >>> 7 := by
    rw [Nat.shiftRight_eq_div_pow]
  apply Nat.eq_of_testBit_eq
  intro i
  rw [Nat.testBit_or, Nat.testBit_shiftLeft, Nat.testBit_shiftLeft, Nat.testBit_shiftLeft,
    hdiv, Nat.testBit_shiftRight, h128, Nat.testBit_mod_two_pow]
  by_cases hx : shift ≤ i
  · by_cases hy : shift + 7 ≤ i
    · have e1 : ¬ (i - shift < 7) := by omega
      have e2 : 7 + (i - (shift + 7)) = i - shift := by omega
      simp [hx, hy, e1, e2]
    · have e1 : i - shift < 7 := by omega
      simp [hx, hy, e1]
  · have hy : ¬ (shift + 7 ≤ i) := by omega
    simp [hx, hy]

theorem lebEncodeF_congr : ∀ (f g n : Nat), n < f → n < g → lebEncodeF f n = lebEncodeF g n := by
  intro f
  induction f with
  | zero => intro g n h _; omega
  | succ f ih =>
    intro g n hf hg
    cases g with
    | zero => omega
    | succ g =>
      rw [lebEncodeF, lebEncodeF]
      by_cases h : n < 128
      · simp [h]
      · simp only [h, if_false]
        exact congrArg (List.cons (n % 128 + 128)) (ih g (n / 128) (by omega) (by omega))

theorem leb128Encode_unfold (n : Nat) :
    leb128Encode n = if n < 128 then [n] else (n % 128 + 128) :: leb128Encode (n / 128) := by
  show lebEncodeF (n + 1) n = _
  rw [lebEncodeF]
  by_cases h : n < 128
  · simp [h]
  · simp only [h, if_false]
    rw [lebEncodeF_congr n (n / 128 + 1) (n / 128) (by omega) (by omega)]
    rfl

theorem read_leb128_encode (n : Nat) : ∀ (rest : List Nat) (val shift : Nat),
    read_leb128 (leb128Encode n ++ rest) val shift =
      some (val ||| (n <<< shift), (leb128Encode n).length) := by
  induction n using Nat.strong_induction_on with
  | _ n ih =>
    intro rest val shift
    rw [leb128Encode_unfold]
    by_cases h : n < 128
    · simp only [if_pos h, List.cons_append, List.nil_append, List.length_cons, List.length_nil]
      rw [read_leb128]
      simp [and128_of_lt h, and127_eq_mod, Nat.mod_eq_of_lt h]
    · simp only [if_neg h, List.cons_append, List.length_cons]
      rw [read_leb128]
      have hb1 : 128 ≤ n % 128 + 128 := by omega
      have hb2 : n % 128 + 128 < 256 := by omega
      simp only [if_neg (and128_of_ge hb1 hb2)]
      rw [ih (n / 128) (by omega) rest _ (shift + 7)]
      simp only [and127_eq_mod]
      have hm : (n % 128 + 128) % 128 = n % 128 := by omega
      rw [hm, Nat.or_assoc, or_shift_merge]

theorem read_leb128_none_of_all_cont : ∀ (bs : List Nat), (∀ b ∈ bs, b &&& 0x80 ≠ 0) →
    ∀ val shift, read_leb128 bs val shift = none := by
  intro bs
  induction bs with
  | nil => intro _ val shift; rfl
  | cons b rest ih =>
    intro h val shift
    have hb : b &&& 0x80 ≠ 0 := h b (by simp)
    rw [read_leb128]
    simp only [if_neg hb]
    rw [ih (fun x hx => h x (by simp [hx])) _ _]

end WasmFantasia

namespace WasmFantasia

/-- C8: for every natural number below `2 ^ 32`, `read_leb128` applied
to the standard unsigned LEB128 encoding of `n` (followed by arbitrary
further input) returns `n` and consumes exactly the bytes of that
encoding. -/
theorem c8_leb128_decode_encode (n : Nat) (rest : List Nat) (_h : n < 4294967296) :
    read_leb128 (leb128Encode n ++ rest) 0 0 = some (n, (leb128Encode n).length) := by
  rw [read_leb128_encode]
  simp

/-- Witness for C8 at `n = 300`, whose encoding is the two bytes
`[0xAC, 0x02]`. -/
theorem c8_leb128_decode_encode_witness :
    (300 : Nat) < 4294967296 ∧
      read_leb128 (leb128Encode 300 ++ [7]) 0 0 = some (300, (leb128Encode 300).length) :=
  ⟨by norm_num, c8_leb128_decode_encode 300 [7] (by norm_num)⟩

/-- C9: when every available byte has its high bit set — so the input
is exhausted before a terminating byte is read — `read_leb128` fails
(`none`, the Python `IndexError` from reading past end of input)
instead of returning a value. -/
theorem c9_truncated_leb128_fails (bs : List Nat) (h : ∀ b ∈ bs, b &&& 0x80 ≠ 0) :
    read_leb128 bs 0 0 = none :=
  read_leb128_none_of_all_cont bs h 0 0

/-- Witness for C9 on the truncated input `[0x80, 0xFF]`. -/
theorem c9_truncated_leb128_fails_witness :
    (∀ b ∈ [128, 255], b &&& 0x80 ≠ 0) ∧ read_leb128 [128, 255] 0 0 = none :=
  ⟨by decide, c9_truncated_leb128_fails [128, 255] (by decide)⟩

end WasmFantasia

namespace WasmFantasia

/-! ### WASM scanner lemmas -/

theorem read_leb128_encode0 (n : Nat) (r : List Nat) :
    read_leb128 (leb128Encode n ++ r) 0 0 = some (n, (leb128Encode n).length) := by
  rw [read_leb128_encode]
  simp

theorem sumVals_addSize (m : List (SectionKey × Nat)) (k : SectionKey) (v : Nat) :
    sumVals (addSize m k v) = sumVals m + v := by
  induction m with
  | nil => simp [addSize, sumVals]
  | cons p rest ih =>
    obtain ⟨k1, v1⟩ := p
    rw [addSize]
    by_cases h : k1 = k
    · simp [h, sumVals]
      omega
    · simp [h, sumVals] at ih ⊢
      omega

theorem scanStep_std (front rest : List Nat) (s : WasmSec) (hs : s.sid ≠ 0) :
    scanStep (front ++ (sectionBytes s ++ rest)) front.length s.sid =
      some ((SectionKey.std s.sid, s.payload.length),
        front.length + (sectionBytes s).length) := by
  have hdata : front ++ (sectionBytes s ++ rest) =
      (front ++ [s.sid]) ++ (leb128Encode s.payload.length ++ (s.payload ++ rest)) := by
    simp [sectionBytes]
  have hsec : (sectionBytes s).length =
      1 + (leb128Encode s.payload.length).length + s.payload.length := by
    simp only [sectionBytes, List.length_cons, List.length_append]
    omega
  rw [scanStep, hdata, List.drop_left' (by simp), read_leb128_encode0]
  simp only [if_neg hs]
  rw [hsec]
  congr 2
  omega

theorem scanStep_custom (front rest : List Nat) (name rest2 : List Nat)
    (hn : name.length < 128) :
    scanStep (front ++ (sectionBytes ⟨0, name.length :: (name ++ rest2)⟩ ++ rest)) front.length 0 =
      some ((SectionKey.custom name, (name.length :: (name ++ rest2)).length),
        front.length + (sectionBytes ⟨0, name.length :: (name ++ rest2)⟩).length) := by
  set payload : List Nat := name.length :: (name ++ rest2) with hpayload
  have hone : leb128Encode name.length = [name.length] := by
    rw [leb128Encode_unfold, if_pos hn]
  have hlen1 : (leb128Encode name.length).length = 1 := by
    rw [hone]
    rfl
  have hplen : payload.length = 1 + (name.length + rest2.length) := by
    simp [hpayload]
    omega
  have hsec : (sectionBytes (⟨0, payload⟩ : WasmSec)).length =
      1 + (leb128Encode payload.length).length + payload.length := by
    simp only [sectionBytes, List.length_cons, List.length_append]
    omega
  have h1 : (front ++ (sectionBytes ⟨0, payload⟩ ++ rest)).drop (front.length + 1) =
      leb128Encode payload.length ++ (payload ++ rest) := by
    have e : front ++ (sectionBytes ⟨0, payload⟩ ++ rest) =
        (front ++ [0]) ++ (leb128Encode payload.length ++ (payload ++ rest)) := by
      simp [sectionBytes]
    rw [e, List.drop_left' (by simp)]
  have h2 : (front ++ (sectionBytes ⟨0, payload⟩ ++ rest)).drop
      (front.length + 1 + (leb128Encode payload.length).length) =
      leb128Encode name.length ++ (name ++ (rest2 ++ rest)) := by
    have e : front ++ (sectionBytes ⟨0, payload⟩ ++ rest) =
        ((front ++ [0]) ++ leb128Encode payload.length) ++
          (leb128Encode name.length ++ (name ++ (rest2 ++ rest))) := by
      simp [sectionBytes, hpayload, hone]
    rw [e, List.drop_left' (by simp; omega)]
  have h3 : (front ++ (sectionBytes ⟨0, payload⟩ ++ rest)).drop
      (front.length + 1 + (leb128Encode payload.length).length + 1) =
      name ++ (rest2 ++ rest) := by
    have e : front ++ (sectionBytes ⟨0, payload⟩ ++ rest) =
        (((front ++ [0]) ++ leb128Encode payload.length) ++ [name.length]) ++
          (name ++ (rest2 ++ rest)) := by
      simp [sectionBytes, hpayload, hone]
    rw [e, List.drop_left' (by simp; omega)]
  simp only [scanStep, h1, read_leb128_encode0, hlen1, h2, h3, List.take_left,
    List.length_take, List.length_append, reduceIte]
  rw [if_neg (by push_cast; omega)]
  simp only [Option.some.injEq, Prod.mk.injEq, true_and, and_true]
  rw [hsec]
  omega

end WasmFantasia

namespace WasmFantasia

theorem sections_length_le (ss : List WasmSec) :
    ss.length ≤ ((ss.map sectionBytes).flatten).length := by
  induction ss with
  | nil => simp
  | cons s rest ih =>
    simp only [List.map_cons, List.flatten_cons, List.length_append, List.length_cons]
    have h1 : 1 ≤ (sectionBytes s).length := by simp [sectionBytes]
    omega

theorem wasmLoop_wf (ss : List WasmSec) :
    ∀ (front : List Nat) (acc : List (SectionKey × Nat)) (fuel : Nat),
      (∀ s ∈ ss, wfSec s) → ss.length < fuel →
      ∃ m, wasmLoop (front ++ (ss.map sectionBytes).flatten) fuel front.length acc = some m ∧
        sumVals m = sumVals acc + (ss.map (fun s => s.payload.length)).sum := by
  induction ss with
  | nil =>
    intro front acc fuel _ hfuel
    cases fuel with
    | zero => omega
    | succ fuel =>
      refine ⟨acc, ?_, by simp⟩
      have hdata : front ++ (([] : List WasmSec).map sectionBytes).flatten = front := by simp
      rw [hdata, wasmLoop, List.getElem?_eq_none (Nat.le_refl _)]
  | cons s rest ih =>
    intro front acc fuel hwf hfuel
    cases fuel with
    | zero => omega
    | succ fuel =>
      have hdata : front ++ ((s :: rest).map sectionBytes).flatten =
          front ++ (sectionBytes s ++ (rest.map sectionBytes).flatten) := by
        simp
      have hid : (front ++ (sectionBytes s ++ (rest.map sectionBytes).flatten))[front.length]? =
          some s.sid := by
        rw [List.getElem?_append_right (Nat.le_refl _)]
        simp [sectionBytes]
      have hkey : ∀ k : SectionKey, ∃ m,
          wasmLoop (front ++ (sectionBytes s ++ (rest.map sectionBytes).flatten)) fuel
            (front.length + (sectionBytes s).length) (addSize acc k s.payload.length) = some m ∧
          sumVals m = sumVals acc + ((s :: rest).map (fun t => t.payload.length)).sum := by
        intro k
        have e1 : front ++ (sectionBytes s ++ (rest.map sectionBytes).flatten) =
            (front ++ sectionBytes s) ++ (rest.map sectionBytes).flatten := by
          simp
        have e2 : front.length + (sectionBytes s).length = (front ++ sectionBytes s).length := by
          simp
        rw [e1, e2]
        obtain ⟨m, hm, hsum⟩ := ih (front ++ sectionBytes s) (addSize acc k s.payload.length)
          fuel (fun t ht => hwf t (by simp [ht])) (by simp at hfuel; omega)
        refine ⟨m, hm, ?_⟩
        rw [hsum, sumVals_addSize]
        simp
        omega
      rw [hdata, wasmLoop]
      by_cases hsid : s.sid = 0
      · obtain ⟨name, rest2, hshape, hn⟩ := (hwf s (by simp)).2 hsid
        have hs : s = ⟨0, name.length :: (name ++ rest2)⟩ := by
          obtain ⟨sid, payload⟩ := s
          simp only at hshape hsid ⊢
          rw [hsid, hshape]
        subst hs
        simp only [hid, scanStep_custom front ((rest.map sectionBytes).flatten) name rest2 hn]
        exact hkey (SectionKey.custom name)
      · simp only [hid, scanStep_std front ((rest.map sectionBytes).flatten) s hsid]
        exact hkey (SectionKey.std s.sid)

end WasmFantasia

namespace WasmFantasia

/-- C1 (amended): for a well-formed WASM file — 8 preamble bytes
followed by encoded sections — the scanner succeeds and the sum of all
sizes in the returned mapping equals the sum of the declared payload
sizes, which is the file size minus 8 minus, for each section, the id
byte and the size varint; the sum is therefore smaller than
`file_size - 8` by exactly those per-section header bytes. -/
theorem c1_section_size_sum (pre : List Nat) (ss : List WasmSec)
    (hpre : pre.length = 8) (hwf : ∀ s ∈ ss, wfSec s) :
    (wasm_sections (pre ++ (ss.map sectionBytes).flatten)).map sumVals =
      some ((ss.map (fun s => s.payload.length)).sum) ∧
    (pre ++ (ss.map sectionBytes).flatten).length =
      8 + (ss.map (fun s => 1 + (leb128Encode s.payload.length).length + s.payload.length)).sum := by
  have hfuel : ss.length < (pre ++ (ss.map sectionBytes).flatten).length + 1 := by
    have h1 := sections_length_le ss
    simp only [List.length_append]
    omega
  obtain ⟨m, hm, hsum⟩ :=
    wasmLoop_wf ss pre [] ((pre ++ (ss.map sectionBytes).flatten).length + 1) hwf hfuel
  constructor
  · rw [wasm_sections, show (8 : Nat) = pre.length from hpre.symm, hm]
    simp [sumVals] at hsum
    simp [sumVals, hsum]
  · have hsec : ∀ s : WasmSec, (sectionBytes s).length =
        1 + (leb128Encode s.payload.length).length + s.payload.length := by
      intro s
      simp only [sectionBytes, List.length_cons, List.length_append]
      omega
    have hmap : (ss.map sectionBytes).map List.length =
        ss.map (fun s => 1 + (leb128Encode s.payload.length).length + s.payload.length) := by
      rw [List.map_map]
      exact List.map_congr_left (fun s _ => hsec s)
    simp only [List.length_append, List.length_flatten, hmap, hpre]

end WasmFantasia

namespace WasmFantasia

set_option maxRecDepth 2000 in
/-- C1 counterexample: a well-formed file with one empty Type section
(id 1, size 0) has 10 bytes; the scanner reports total size 0, but
`file_size - 8 = 2` — the id byte and size varint are never counted, so
the claimed identity fails on well-formed input. -/
theorem c1_section_size_sum_cex :
    wfSec ⟨1, []⟩ ∧
      wasm_sections (List.replicate 8 0 ++ (([⟨1, []⟩] : List WasmSec).map sectionBytes).flatten) =
        some [(SectionKey.std 1, 0)] ∧
      ¬ (sumVals [(SectionKey.std 1, 0)] =
          (List.replicate 8 0 ++ (([⟨1, []⟩] : List WasmSec).map sectionBytes).flatten).length - 8) :=
  ⟨⟨by norm_num, fun hc => absurd hc (by norm_num)⟩, by decide, by decide⟩

set_option maxRecDepth 2000 in
/-- Witness for the amended C1 on a file with one Type section with a
2-byte payload: the scanner reports 2 and the file has 8 + 4 bytes. -/
theorem c1_section_size_sum_witness :
    (wasm_sections (List.replicate 8 0 ++ (([⟨1, [5, 6]⟩] : List WasmSec).map sectionBytes).flatten)).map sumVals =
      some ((([⟨1, [5, 6]⟩] : List WasmSec).map (fun s => s.payload.length)).sum) ∧
    (List.replicate 8 0 ++ (([⟨1, [5, 6]⟩] : List WasmSec).map sectionBytes).flatten).length =
      8 + (([⟨1, [5, 6]⟩] : List WasmSec).map
        (fun s => 1 + (leb128Encode s.payload.length).length + s.payload.length)).sum :=
  c1_section_size_sum (List.replicate 8 0) [⟨1, [5, 6]⟩] (by decide)
    (fun s hs => by
      rw [List.mem_singleton] at hs
      rw [hs]
      exact ⟨by norm_num, fun hc => absurd hc (by norm_num)⟩)

set_option maxRecDepth 8000 in
/-- C3: evaluation of the scanner at a custom section whose name is 128
bytes long, so its name-length varint takes two bytes.  The section
occupies bytes 8 to 140 (declared size 130, section end 141), but the
scanner advances the cursor by `size - len(raw) - 1`, which hardcodes a
one-byte varint, and stops at 142 — one byte past the declared section
end, desynchronizing every following section. -/
theorem c3_custom_name_skip_off_by_one :
    scanStep (List.replicate 8 0 ++
        (0 :: (leb128Encode 130 ++ (leb128Encode 128 ++ List.replicate 128 97)))) 8 0 =
      some ((SectionKey.custom (List.replicate 128 97), 130), 142) ∧
    8 + (sectionBytes ⟨0, leb128Encode 128 ++ List.replicate 128 97⟩).length = 141 ∧
    (142 : Nat) ≠ 141 :=
  ⟨by decide, by decide, by decide⟩

end WasmFantasia

namespace WasmFantasia

/-! ### GLB codec lemmas -/

@[simp] theorem glTFmagic_length : glTFmagic.length = 4 := rfl

@[simp] theorem jsonTag_length : jsonTag.length = 4 := rfl

@[simp] theorem binTag_length : binTag.length = 4 := rfl

@[simp] theorem le32_length (x : Nat) : (le32 x).length = 4 := rfl

theorem list_len4 {α : Type} : ∀ (v : List α), v.length = 4 →
    ∃ b0 b1 b2 b3, v = [b0, b1, b2, b3]
  | [b0, b1, b2, b3], _ => ⟨b0, b1, b2, b3, rfl⟩
  | [], h => by simp at h
  | [a], h => by simp at h
  | [a, b], h => by simp at h
  | [a, b, c], h => by simp at h
  | a :: b :: c :: d :: e :: t, h => by
    simp only [List.length_cons] at h
    omega

theorem readLe32_append {p : Nat} (a r : List Nat) (x : Nat) (ha : a.length = p)
    (hx : x < 4294967296) : readLe32 (a ++ (le32 x ++ r)) p = some x := by
  rw [readLe32, List.drop_left' ha, List.take_left' (show (le32 x).length = 4 from rfl)]
  show some (x % 256 + 256 * (x / 256 % 256) + 65536 * (x / 65536 % 256) +
    16777216 * (x / 16777216 % 256)) = some x
  congr 1
  omega

theorem readLe32_short (data : List Nat) (pos : Nat) (h : data.length < pos + 4) :
    readLe32 data pos = none := by
  rw [readLe32]
  have hlen : ((data.drop pos).take 4).length < 4 := by
    simp only [List.length_take, List.length_drop]
    omega
  generalize (data.drop pos).take 4 = l at hlen
  match l, hlen with
  | [], _ => rfl
  | [a], _ => rfl
  | [a, b], _ => rfl
  | [a, b, c], _ => rfl
  | a :: b :: c :: d :: t, h2 => ?_
  case _ =>
    simp only [List.length_cons] at h2
    omega

theorem pad4_eq_self_iff (p : Nat) (B : List Nat) : pad4 p B = B ↔ B.length % 4 = 0 := by
  constructor
  · intro h
    have h2 := congrArg List.length h
    simp only [pad4, List.length_append, List.length_replicate] at h2
    omega
  · intro h
    have h2 : (4 - B.length % 4) % 4 = 0 := by omega
    simp [pad4, h2]

theorem write_glb_eq {Doc : Type} (dumps : Doc → List Nat) (d : Doc) (B : List Nat)
    (h : 12 + 8 + (pad4 32 (dumps d)).length + 8 + (pad4 0 B).length < 4294967296) :
    write_glb dumps d B = some (glTFmagic ++ (le32 2 ++
      (le32 (12 + 8 + (pad4 32 (dumps d)).length + 8 + (pad4 0 B).length) ++
        (le32 (pad4 32 (dumps d)).length ++ (jsonTag ++ (pad4 32 (dumps d) ++
          (le32 (pad4 0 B).length ++ (binTag ++ pad4 0 B)))))))) := by
  rw [write_glb, if_pos h]
  simp [List.append_assoc]

theorem read_glb_layout {Doc : Type} (loads : List Nat → Option Doc)
    (ver t1 t2 jb bb : List Nat) (T : Nat)
    (hver : ver.length = 4) (ht1 : t1.length = 4) (ht2 : t2.length = 4)
    (hT : T < 4294967296) (hTgt : 20 + jb.length < T)
    (hjb : jb.length < 4294967296) (hbb : bb.length < 4294967296) :
    read_glb loads (glTFmagic ++ (ver ++ (le32 T ++ (le32 jb.length ++
        (t1 ++ (jb ++ (le32 bb.length ++ (t2 ++ bb)))))))) =
      (loads jb).map (fun jd => (jd, bb)) := by
  obtain ⟨v0, v1, v2, v3, rfl⟩ := list_len4 ver hver
  set F := glTFmagic ++ ([v0, v1, v2, v3] ++ (le32 T ++ (le32 jb.length ++
      (t1 ++ (jb ++ (le32 bb.length ++ (t2 ++ bb))))))) with hF
  have dmagic : F.take 4 = glTFmagic := by
    rw [hF]
    exact List.take_left' rfl
  have d4 : readLe32 F 4 = some (v0 + 256 * v1 + 65536 * v2 + 16777216 * v3) := by
    rw [hF, readLe32, List.drop_left' (by simp),
      List.take_left' (show ([v0, v1, v2, v3] : List Nat).length = 4 from rfl)]
  have d8 : readLe32 F 8 = some T := by
    rw [show F = (glTFmagic ++ [v0, v1, v2, v3]) ++ (le32 T ++ (le32 jb.length ++
        (t1 ++ (jb ++ (le32 bb.length ++ (t2 ++ bb)))))) from by simp [hF]]
    exact readLe32_append _ _ _ (by simp) hT
  have d12 : readLe32 F 12 = some jb.length := by
    rw [show F = ((glTFmagic ++ [v0, v1, v2, v3]) ++ le32 T) ++ (le32 jb.length ++
        (t1 ++ (jb ++ (le32 bb.length ++ (t2 ++ bb))))) from by simp [hF]]
    exact readLe32_append _ _ _ (by simp) hjb
  have d16tag : (F.drop 16).take 4 = t1 := by
    rw [show F = (((glTFmagic ++ [v0, v1, v2, v3]) ++ le32 T) ++ le32 jb.length) ++
        (t1 ++ (jb ++ (le32 bb.length ++ (t2 ++ bb)))) from by simp [hF]]
    rw [List.drop_left' (by simp), List.take_left' ht1]
  have dj : (F.drop 20).take jb.length = jb := by
    rw [show F = ((((glTFmagic ++ [v0, v1, v2, v3]) ++ le32 T) ++ le32 jb.length) ++ t1) ++
        (jb ++ (le32 bb.length ++ (t2 ++ bb))) from by simp [hF]]
    rw [List.drop_left' (by simp [ht1]), List.take_left' rfl]
  have dbin : readLe32 F (20 + jb.length) = some bb.length := by
    rw [show F = (((((glTFmagic ++ [v0, v1, v2, v3]) ++ le32 T) ++ le32 jb.length) ++ t1) ++ jb) ++
        (le32 bb.length ++ (t2 ++ bb)) from by simp [hF]]
    exact readLe32_append _ _ _ (by simp only [List.length_append, glTFmagic_length,
      le32_length, List.length_cons, List.length_nil, ht1]) hbb
  have dtag2 : (F.drop (20 + jb.length + 4)).take 4 = t2 := by
    rw [show F = ((((((glTFmagic ++ [v0, v1, v2, v3]) ++ le32 T) ++ le32 jb.length) ++ t1) ++ jb) ++
        le32 bb.length) ++ (t2 ++ bb) from by simp [hF]]
    rw [List.drop_left' (by simp only [List.length_append, glTFmagic_length,
      le32_length, List.length_cons, List.length_nil, ht1]), List.take_left' ht2]
  have dbb : (F.drop (20 + jb.length + 4 + 4)).take bb.length = bb := by
    rw [show F = (((((((glTFmagic ++ [v0, v1, v2, v3]) ++ le32 T) ++ le32 jb.length) ++ t1) ++ jb) ++
        le32 bb.length) ++ t2) ++ bb from by simp [hF]]
    rw [List.drop_left' (by simp only [List.length_append, glTFmagic_length,
      le32_length, List.length_cons, List.length_nil, ht1, ht2]), List.take_length]
  cases hL : loads jb with
  | none =>
    simp [read_glb, dmagic, d4, d8, d12, d16tag, ht1, dj, hL]
  | some jd =>
    simp [read_glb, dmagic, d4, d8, d12, d16tag, ht1, dj, hL, hTgt, dbin, dtag2, ht2, dbb]

end WasmFantasia

namespace WasmFantasia

/-- C2 (amended): a GLB round-trip returns the document exactly — the
JSON chunk's space padding is invisible because the parser tolerates
trailing whitespace — but the binary payload comes back zero-padded to
a multiple of 4, because the writer declares the padded length in the
BIN chunk header and the reader reads exactly that many bytes.  Hence
`read(write(D, B)) = (D, pad(B))`, which equals `(D, B)` precisely when
`B`'s length is a multiple of 4.  The hypotheses on the abstract JSON
codec say only that the compact serialization of `D`, after space
padding, parses back to `D`, and that the file fits the 32-bit length
fields. -/
theorem c2_glb_roundtrip_padded {Doc : Type} (dumps : Doc → List Nat)
    (loads : List Nat → Option Doc) (D : Doc) (B : List Nat)
    (hl : loads (pad4 32 (dumps D)) = some D)
    (hmax : 12 + 8 + (pad4 32 (dumps D)).length + 8 + (pad4 0 B).length < 4294967296) :
    (write_glb dumps D B).bind (read_glb loads) = some (D, pad4 0 B) ∧
      (pad4 0 B = B ↔ B.length % 4 = 0) := by
  refine ⟨?_, pad4_eq_self_iff 0 B⟩
  rw [write_glb_eq dumps D B hmax, Option.some_bind]
  rw [read_glb_layout loads (le32 2) jsonTag binTag (pad4 32 (dumps D)) (pad4 0 B)
    (12 + 8 + (pad4 32 (dumps D)).length + 8 + (pad4 0 B).length)
    rfl rfl rfl hmax (by omega) (by omega) (by omega)]
  rw [hl]
  rfl

/-- C2 counterexample: with the toy codec and the 3-byte payload
`[1, 2, 3]`, writing and re-reading returns the padded payload
`[1, 2, 3, 0]`, not the original — the BIN padding is observable, so
the round-trip is not the identity for lengths not a multiple of 4. -/
theorem c2_glb_roundtrip_padded_cex :
    (write_glb toyDumps 0 [1, 2, 3]).bind (read_glb toyLoads) = some (0, [1, 2, 3, 0]) ∧
      some ((0 : Nat), ([1, 2, 3, 0] : List Nat)) ≠ some (0, [1, 2, 3]) :=
  ⟨by decide, by decide⟩

/-- Witness for the amended C2 with the toy codec, document `0` and
payload `[1, 2, 3]`. -/
theorem c2_glb_roundtrip_padded_witness :
    (write_glb toyDumps 0 [1, 2, 3]).bind (read_glb toyLoads) = some (0, pad4 0 [1, 2, 3]) ∧
      (pad4 0 [1, 2, 3] = [1, 2, 3] ↔ ([1, 2, 3] : List Nat).length % 4 = 0) :=
  c2_glb_roundtrip_padded toyDumps toyLoads 0 [1, 2, 3] (by decide) (by decide)

/-- C4 (amended): for a binary payload of length 3, the writer pads the
BIN chunk body to length 4 with one zero byte, and the BIN chunk header
declares the padded length 4 — not the unpadded logical length 3 that
the claim (and the GLB specification) call for. -/
theorem c4_bin_chunk_padded_header {Doc : Type} (dumps : Doc → List Nat) (d : Doc)
    (B : List Nat) (hB : B.length = 3)
    (hmax : 12 + 8 + (pad4 32 (dumps d)).length + 8 + (pad4 0 B).length < 4294967296) :
    pad4 0 B = B ++ [0] ∧ (B ++ [0]).length = 4 ∧
    write_glb dumps d B = some (glTFmagic ++ (le32 2 ++
      (le32 (12 + 8 + (pad4 32 (dumps d)).length + 8 + 4) ++
        (le32 (pad4 32 (dumps d)).length ++ (jsonTag ++ (pad4 32 (dumps d) ++
          (le32 4 ++ (binTag ++ (B ++ [0]))))))))) := by
  have hpad : pad4 0 B = B ++ [0] := by
    rw [pad4, hB]
    rfl
  have h4 : (pad4 0 B).length = 4 := by
    rw [hpad]
    simp [hB]
  refine ⟨hpad, by simp [hB], ?_⟩
  rw [write_glb_eq dumps d B hmax, h4, hpad]

/-- C4 counterexample: at the toy document and payload `[9, 9, 9]`, the
written BIN chunk header (bytes 24-27 of the file) holds the padded
length 4, which differs from the unpadded length 3 the claim asserts. -/
theorem c4_bin_chunk_padded_header_cex :
    (write_glb toyDumps 0 [9, 9, 9]).map (fun f => (f.drop 24).take 4) = some (le32 4) ∧
      le32 4 ≠ le32 3 ∧
      (write_glb toyDumps 0 [9, 9, 9]).map (fun f => f.drop 32) = some [9, 9, 9, 0] :=
  ⟨by decide, by decide, by decide⟩

/-- Witness for the amended C4 with the toy codec and payload
`[9, 9, 9]`. -/
theorem c4_bin_chunk_padded_header_witness :
    pad4 0 [9, 9, 9] = [9, 9, 9] ++ [0] ∧ (([9, 9, 9] : List Nat) ++ [0]).length = 4 ∧
    write_glb toyDumps 0 [9, 9, 9] = some (glTFmagic ++ (le32 2 ++
      (le32 (12 + 8 + (pad4 32 (toyDumps 0)).length + 8 + 4) ++
        (le32 (pad4 32 (toyDumps 0)).length ++ (jsonTag ++ (pad4 32 (toyDumps 0) ++
          (le32 4 ++ (binTag ++ ([9, 9, 9] ++ [0]))))))))) :=
  c4_bin_chunk_padded_header toyDumps 0 [9, 9, 9] (by decide) (by decide)

end WasmFantasia

namespace WasmFantasia

/-- C5: for every document and binary payload — the empty payload
included — the writer emits, in order, the magic `glTF`, version 2 as a
4-byte little-endian integer, a declared total length that equals both
`12 + 8 + padded_json + 8 + padded_binary` and the actual byte length
of the output, then the two chunks, each header declaring exactly the
number of body bytes actually written — the GLB Document length
invariant of spec section 3. -/
theorem c5_write_glb_invariant {Doc : Type} (dumps : Doc → List Nat) (d : Doc) (B : List Nat)
    (hmax : 12 + 8 + (pad4 32 (dumps d)).length + 8 + (pad4 0 B).length < 4294967296) :
    (write_glb dumps d B).map (fun f => f.take 4) = some glTFmagic ∧
    (write_glb dumps d B).bind (fun f => readLe32 f 4) = some 2 ∧
    (write_glb dumps d B).bind (fun f => readLe32 f 8) =
      some (12 + 8 + (pad4 32 (dumps d)).length + 8 + (pad4 0 B).length) ∧
    (write_glb dumps d B).map List.length =
      some (12 + 8 + (pad4 32 (dumps d)).length + 8 + (pad4 0 B).length) ∧
    (write_glb dumps d B).bind (fun f => readLe32 f 12) = some (pad4 32 (dumps d)).length ∧
    (write_glb dumps d B).map (fun f => (f.drop 16).take 4) = some jsonTag ∧
    (write_glb dumps d B).map (fun f => (f.drop 20).take (pad4 32 (dumps d)).length) =
      some (pad4 32 (dumps d)) ∧
    (write_glb dumps d B).bind (fun f => readLe32 f (20 + (pad4 32 (dumps d)).length)) =
      some (pad4 0 B).length ∧
    (write_glb dumps d B).map
        (fun f => (f.drop (20 + (pad4 32 (dumps d)).length + 4)).take 4) = some binTag ∧
    (write_glb dumps d B).map (fun f => f.drop (20 + (pad4 32 (dumps d)).length + 4 + 4)) =
      some (pad4 0 B) := by
  rw [write_glb_eq dumps d B hmax]
  set pj := pad4 32 (dumps d) with hpj
  set pb := pad4 0 B with hpb
  set T := 12 + 8 + pj.length + 8 + pb.length with hT
  set F := glTFmagic ++ (le32 2 ++ (le32 T ++ (le32 pj.length ++
    (jsonTag ++ (pj ++ (le32 pb.length ++ (binTag ++ pb))))))) with hF
  refine ⟨?_, ?_, ?_, ?_, ?_, ?_, ?_, ?_, ?_, ?_⟩
  · rw [Option.map_some']
    congr 1
  · rw [Option.some_bind, hF]
    exact readLe32_append _ _ _ (by simp) (by omega)
  · rw [Option.some_bind,
      show F = (glTFmagic ++ le32 2) ++ (le32 T ++ (le32 pj.length ++
        (jsonTag ++ (pj ++ (le32 pb.length ++ (binTag ++ pb)))))) from by simp [hF]]
    exact readLe32_append _ _ _ (by simp) (by omega)
  · rw [Option.map_some']
    congr 1
    rw [hF]
    simp [hT]
    omega
  · rw [Option.some_bind,
      show F = ((glTFmagic ++ le32 2) ++ le32 T) ++ (le32 pj.length ++
        (jsonTag ++ (pj ++ (le32 pb.length ++ (binTag ++ pb))))) from by simp [hF]]
    exact readLe32_append _ _ _ (by simp) (by omega)
  · rw [Option.map_some']
    congr 1
  · rw [Option.map_some']
    congr 1
    rw [show F = ((((glTFmagic ++ le32 2) ++ le32 T) ++ le32 pj.length) ++ jsonTag) ++
        (pj ++ (le32 pb.length ++ (binTag ++ pb))) from by simp [hF]]
    rw [List.drop_left' (by simp), List.take_left' rfl]
  · rw [Option.some_bind,
      show F = (((((glTFmagic ++ le32 2) ++ le32 T) ++ le32 pj.length) ++ jsonTag) ++ pj) ++
        (le32 pb.length ++ (binTag ++ pb)) from by simp [hF]]
    exact readLe32_append _ _ _ (by simp only [List.length_append, glTFmagic_length,
      jsonTag_length, binTag_length, le32_length]) (by omega)
  · rw [Option.map_some']
    congr 1
    rw [show F = ((((((glTFmagic ++ le32 2) ++ le32 T) ++ le32 pj.length) ++ jsonTag) ++ pj) ++
        le32 pb.length) ++ (binTag ++ pb) from by simp [hF]]
    rw [List.drop_left' (by simp only [List.length_append, glTFmagic_length,
      jsonTag_length, binTag_length, le32_length]),
      List.take_left' (show binTag.length = 4 from rfl)]
  · rw [Option.map_some']
    congr 1
    rw [show F = (((((((glTFmagic ++ le32 2) ++ le32 T) ++ le32 pj.length) ++ jsonTag) ++ pj) ++
        le32 pb.length) ++ binTag) ++ pb from by simp [hF]]
    rw [List.drop_left' (by simp only [List.length_append, glTFmagic_length,
      jsonTag_length, binTag_length, le32_length])]

/-- Witness for C5 with the toy codec and the empty binary payload,
which still produces a zero-length BIN chunk header and body. -/
theorem c5_write_glb_invariant_witness :
    (write_glb toyDumps 0 []).map (fun f => f.take 4) = some glTFmagic ∧
    (write_glb toyDumps 0 []).bind (fun f => readLe32 f 4) = some 2 ∧
    (write_glb toyDumps 0 []).bind (fun f => readLe32 f 8) =
      some (12 + 8 + (pad4 32 (toyDumps 0)).length + 8 + (pad4 0 []).length) ∧
    (write_glb toyDumps 0 []).map List.length =
      some (12 + 8 + (pad4 32 (toyDumps 0)).length + 8 + (pad4 0 []).length) ∧
    (write_glb toyDumps 0 []).bind (fun f => readLe32 f 12) = some (pad4 32 (toyDumps 0)).length ∧
    (write_glb toyDumps 0 []).map (fun f => (f.drop 16).take 4) = some jsonTag ∧
    (write_glb toyDumps 0 []).map (fun f => (f.drop 20).take (pad4 32 (toyDumps 0)).length) =
      some (pad4 32 (toyDumps 0)) ∧
    (write_glb toyDumps 0 []).bind (fun f => readLe32 f (20 + (pad4 32 (toyDumps 0)).length)) =
      some (pad4 0 []).length ∧
    (write_glb toyDumps 0 []).map
        (fun f => (f.drop (20 + (pad4 32 (toyDumps 0)).length + 4)).take 4) = some binTag ∧
    (write_glb toyDumps 0 []).map (fun f => f.drop (20 + (pad4 32 (toyDumps 0)).length + 4 + 4)) =
      some (pad4 0 []) :=
  c5_write_glb_invariant toyDumps 0 [] (by decide)

end WasmFantasia

namespace WasmFantasia

theorem readLe32_none_iff (data : List Nat) (pos : Nat) :
    readLe32 data pos = none ↔ data.length < pos + 4 := by
  constructor
  · intro h
    by_contra hlen
    push_neg at hlen
    have h4 : ((data.drop pos).take 4).length = 4 := by
      simp only [List.length_take, List.length_drop]
      omega
    obtain ⟨b0, b1, b2, b3, he⟩ := list_len4 _ h4
    rw [readLe32, he] at h
    exact absurd h (by simp)
  · intro h
    exact readLe32_short data pos h

theorem read_glb_none_iff {Doc : Type} (loads : List Nat → Option Doc) (data : List Nat) :
    read_glb loads data = none ↔
      data.take 4 ≠ glTFmagic ∨
      readLe32 data 4 = none ∨
      readLe32 data 8 = none ∨
      readLe32 data 12 = none ∨
      (∃ jlen, readLe32 data 12 = some jlen ∧ loads (jsonChunkBytes data jlen) = none) ∨
      (∃ total jlen, readLe32 data 8 = some total ∧ readLe32 data 12 = some jlen ∧
        tellAfterJson data jlen < total ∧
        readLe32 data (tellAfterJson data jlen) = none) := by
  by_cases hm : data.take 4 = glTFmagic
  case neg => simp [read_glb, hm]
  case pos =>
    cases h4 : readLe32 data 4 with
    | none => simp [read_glb, hm, h4]
    | some v4 =>
      cases h8 : readLe32 data 8 with
      | none => simp [read_glb, hm, h4, h8]
      | some total =>
        cases h12 : readLe32 data 12 with
        | none => simp [read_glb, hm, h4, h8, h12]
        | some jlen =>
          cases hl : loads ((data.drop (16 + ((data.drop 16).take 4).length)).take jlen) with
          | none =>
            simp only [List.length_take, List.length_drop] at hl
            simp [read_glb, jsonChunkBytes, tellAfterJson, hm, h4, h8, h12, hl]
          | some jd =>
            simp only [List.length_take, List.length_drop] at hl
            by_cases hp : 16 + ((data.drop 16).take 4).length +
                ((data.drop (16 + ((data.drop 16).take 4).length)).take jlen).length < total
            · cases hb : readLe32 data (16 + ((data.drop 16).take 4).length +
                  ((data.drop (16 + ((data.drop 16).take 4).length)).take jlen).length) with
              | none =>
                simp only [List.length_take, List.length_drop] at hp hb
                simp [read_glb, jsonChunkBytes, tellAfterJson, hm, h4, h8, h12, hl, hp, hb]
              | some bl =>
                simp only [List.length_take, List.length_drop] at hp hb
                simp [read_glb, jsonChunkBytes, tellAfterJson, hm, h4, h8, h12, hl, hp, hb]
            · simp only [List.length_take, List.length_drop] at hp
              simp [read_glb, jsonChunkBytes, tellAfterJson, hm, h4, h8, h12, hl, hp]

theorem read_glb_layout_single {Doc : Type} (loads : List Nat → Option Doc)
    (ver t1 jb : List Nat) (T : Nat)
    (hver : ver.length = 4) (ht1 : t1.length = 4)
    (hT : T < 4294967296) (hTle : ¬ (20 + jb.length < T)) (hjb : jb.length < 4294967296) :
    read_glb loads (glTFmagic ++ (ver ++ (le32 T ++ (le32 jb.length ++ (t1 ++ jb))))) =
      (loads jb).map (fun jd => (jd, [])) := by
  obtain ⟨v0, v1, v2, v3, rfl⟩ := list_len4 ver hver
  set F := glTFmagic ++ ([v0, v1, v2, v3] ++ (le32 T ++ (le32 jb.length ++ (t1 ++ jb)))) with hF
  have dmagic : F.take 4 = glTFmagic := by
    rw [hF]
    exact List.take_left' rfl
  have d4 : readLe32 F 4 = some (v0 + 256 * v1 + 65536 * v2 + 16777216 * v3) := by
    rw [hF, readLe32, List.drop_left' (by simp),
      List.take_left' (show ([v0, v1, v2, v3] : List Nat).length = 4 from rfl)]
  have d8 : readLe32 F 8 = some T := by
    rw [show F = (glTFmagic ++ [v0, v1, v2, v3]) ++ (le32 T ++ (le32 jb.length ++ (t1 ++ jb)))
      from by simp [hF]]
    exact readLe32_append _ _ _ (by simp) hT
  have d12 : readLe32 F 12 = some jb.length := by
    rw [show F = ((glTFmagic ++ [v0, v1, v2, v3]) ++ le32 T) ++ (le32 jb.length ++ (t1 ++ jb))
      from by simp [hF]]
    exact readLe32_append _ _ _ (by simp) hjb
  have d16tag : (F.drop 16).take 4 = t1 := by
    rw [show F = (((glTFmagic ++ [v0, v1, v2, v3]) ++ le32 T) ++ le32 jb.length) ++ (t1 ++ jb)
      from by simp [hF]]
    rw [List.drop_left' (by simp), List.take_left' ht1]
  have dj : (F.drop 20).take jb.length = jb := by
    rw [show F = ((((glTFmagic ++ [v0, v1, v2, v3]) ++ le32 T) ++ le32 jb.length) ++ t1) ++ jb
      from by simp [hF]]
    rw [List.drop_left' (by simp [ht1])]
    exact List.take_length jb
  cases hL : loads jb with
  | none => simp [read_glb, dmagic, d4, d8, d12, d16tag, ht1, dj, hL]
  | some jd => simp [read_glb, dmagic, d4, d8, d12, d16tag, ht1, dj, hL, hTle]

/-- C10 (amended): `read_glb` fails if and only if the first 4 bytes
differ from `glTF`, or a needed 4-byte integer field — version, total
length, JSON chunk length, or, when the declared total length indicates
a second chunk, the BIN chunk length — cannot be filled from the
remaining input, or the JSON chunk bytes fail to parse; and the version
value and both chunk type tags are read but never validated.  Conjunct
one is the exact error characterization over every input; conjunct two
states that a 4-byte field read fails precisely when the input ends
before the field does; conjuncts three and four show that on two-chunk
and single-chunk shaped files the result is independent of the version
bytes and type-tag bytes and fails exactly when the JSON parse fails. -/
theorem c10_read_glb_errors :
    (∀ (Doc : Type) (loads : List Nat → Option Doc) (data : List Nat),
        read_glb loads data = none ↔
          data.take 4 ≠ glTFmagic ∨
          readLe32 data 4 = none ∨
          readLe32 data 8 = none ∨
          readLe32 data 12 = none ∨
          (∃ jlen, readLe32 data 12 = some jlen ∧ loads (jsonChunkBytes data jlen) = none) ∨
          (∃ total jlen, readLe32 data 8 = some total ∧ readLe32 data 12 = some jlen ∧
            tellAfterJson data jlen < total ∧
            readLe32 data (tellAfterJson data jlen) = none)) ∧
    (∀ (data : List Nat) (pos : Nat), readLe32 data pos = none ↔ data.length < pos + 4) ∧
    (∀ (Doc : Type) (loads : List Nat → Option Doc) (ver t1 t2 jb bb : List Nat) (T : Nat),
        ver.length = 4 → t1.length = 4 → t2.length = 4 → T < 4294967296 →
        20 + jb.length < T → jb.length < 4294967296 → bb.length < 4294967296 →
        read_glb loads (glTFmagic ++ (ver ++ (le32 T ++ (le32 jb.length ++
          (t1 ++ (jb ++ (le32 bb.length ++ (t2 ++ bb)))))))) =
          (loads jb).map (fun jd => (jd, bb))) ∧
    (∀ (Doc : Type) (loads : List Nat → Option Doc) (ver t1 jb : List Nat) (T : Nat),
        ver.length = 4 → t1.length = 4 → T < 4294967296 →
        ¬ (20 + jb.length < T) → jb.length < 4294967296 →
        read_glb loads (glTFmagic ++ (ver ++ (le32 T ++ (le32 jb.length ++ (t1 ++ jb))))) =
          (loads jb).map (fun jd => (jd, []))) :=
  ⟨fun _ loads data => read_glb_none_iff loads data,
   fun data pos => readLe32_none_iff data pos,
   fun _ loads ver t1 t2 jb bb T h1 h2 h3 h4 h5 h6 h7 =>
     read_glb_layout loads ver t1 t2 jb bb T h1 h2 h3 h4 h5 h6 h7,
   fun _ loads ver t1 jb T h1 h2 h3 h4 h5 =>
     read_glb_layout_single loads ver t1 jb T h1 h2 h3 h4 h5⟩

/-- C10 counterexample: a 23-byte file with correct magic whose 1-byte
JSON chunk parses (toy codec), but which is truncated in the middle of
the BIN chunk length field: `read_glb` fails even though neither of the
two error sources admitted by the claim is present, so the claimed
`if and only if` is false. -/
theorem c10_read_glb_errors_cex :
    read_glb toyLoads [103, 108, 84, 70, 9, 9, 9, 9, 100, 0, 0, 0, 1, 0, 0, 0,
      74, 83, 79, 78, 49, 0, 0] = none ∧
    ([103, 108, 84, 70, 9, 9, 9, 9, 100, 0, 0, 0, 1, 0, 0, 0,
      74, 83, 79, 78, 49, 0, 0] : List Nat).take 4 = glTFmagic ∧
    toyLoads ((([103, 108, 84, 70, 9, 9, 9, 9, 100, 0, 0, 0, 1, 0, 0, 0,
      74, 83, 79, 78, 49, 0, 0] : List Nat).drop 20).take 1) = some 0 :=
  ⟨by decide, by decide, by decide⟩

/-- Witness for the amended C10: a 10-byte file with good magic but a
truncated total-length field errors (the iff, applied right to left at
the third error source); a two-chunk file with version bytes `9 9 9 9`
and garbage type tags decodes; and a single-chunk file whose declared
total length stops at the JSON chunk decodes with an empty binary
payload. -/
theorem c10_read_glb_errors_witness :
    read_glb toyLoads [103, 108, 84, 70, 9, 9, 9, 9, 0, 0] = none ∧
    read_glb toyLoads (glTFmagic ++ ([9, 9, 9, 9] ++ (le32 100 ++ (le32 ([49] : List Nat).length ++
      ([1, 2, 3, 4] ++ ([49] ++ (le32 ([7] : List Nat).length ++ ([5, 6, 7, 8] ++ [7])))))))) =
      (toyLoads [49]).map (fun jd => (jd, [7])) ∧
    read_glb toyLoads (glTFmagic ++ ([9, 9, 9, 9] ++ (le32 21 ++ (le32 ([49] : List Nat).length ++
      ([74, 83, 79, 78] ++ [49]))))) = (toyLoads [49]).map (fun jd => (jd, [])) :=
  ⟨(c10_read_glb_errors.1 Nat toyLoads [103, 108, 84, 70, 9, 9, 9, 9, 0, 0]).mpr
      (Or.inr (Or.inr (Or.inl (by decide)))),
    c10_read_glb_errors.2.2.1 Nat toyLoads [9, 9, 9, 9] [1, 2, 3, 4] [5, 6, 7, 8] [49] [7] 100
      (by decide) (by decide) (by decide) (by decide) (by decide) (by decide) (by decide),
    c10_read_glb_errors.2.2.2 Nat toyLoads [9, 9, 9, 9] [74, 83, 79, 78] [49] 21
      (by decide) (by decide) (by decide) (by decide) (by decide)⟩

end WasmFantasia

namespace WasmFantasia

/-! ### Remapper lemmas -/

theorem nameToIdx_get : ∀ (nodes : List (Option String)) (s : String) (i : Nat),
    nameToIdx nodes s = some i → nodes[i]? = some (some s) := by
  intro nodes
  induction nodes with
  | nil => intro s i h; simp [nameToIdx] at h
  | cons n rest ih =>
    intro s i h
    rw [nameToIdx] at h
    cases hr : nameToIdx rest s with
    | some j =>
      rw [hr] at h
      obtain rfl : j + 1 = i := Option.some.inj h
      simpa using ih s j hr
    | none =>
      rw [hr] at h
      by_cases hn : n = some s
      · rw [if_pos hn] at h
        obtain rfl : (0 : Nat) = i := Option.some.inj h
        simpa using hn
      · rw [if_neg hn] at h
        exact absurd h (by simp)

theorem nameToIdx_inj {nodes : List (Option String)} {s1 s2 : String} {i : Nat}
    (h1 : nameToIdx nodes s1 = some i) (h2 : nameToIdx nodes s2 = some i) : s1 = s2 := by
  have g1 := nameToIdx_get nodes s1 i h1
  have g2 := nameToIdx_get nodes s2 i h2
  rw [g1] at g2
  simpa using g2

theorem lookupIdx_dictInsert (m : List (Nat × Nat)) (a b k : Nat) :
    lookupIdx (dictInsert m a b) k = if a = k then some b else lookupIdx m k := by
  induction m with
  | nil => simp [dictInsert, lookupIdx]
  | cons p rest ih =>
    obtain ⟨k1, v1⟩ := p
    rw [dictInsert]
    by_cases h : k1 = a
    · subst h
      by_cases h2 : k1 = k
      · subst h2
        simp [lookupIdx]
      · simp [lookupIdx, h2]
    · by_cases h2 : k1 = k
      · subst h2
        have h3 : ¬ (a = k1) := fun e => h e.symm
        simp [lookupIdx, h, h3]
      · simp [lookupIdx, h, h2, ih]

theorem buildMap_mem : ∀ (bm : List (String × String)) (nodes : List (Option String))
    (m0 : List (Nat × Nat)) (k v : Nat),
    lookupIdx (bm.foldl (fun m p =>
      match nameToIdx nodes p.1, nameToIdx nodes p.2 with
      | some a, some b => dictInsert m a b
      | _, _ => m) m0) k = some v →
    (∃ p ∈ bm, nameToIdx nodes p.1 = some k ∧ nameToIdx nodes p.2 = some v) ∨
      lookupIdx m0 k = some v := by
  intro bm
  induction bm with
  | nil => intro nodes m0 k v h; exact Or.inr h
  | cons p rest ih =>
    intro nodes m0 k v h
    rw [List.foldl_cons] at h
    rcases ih nodes _ k v h with hmem | hm0
    · obtain ⟨q, hq, h1, h2⟩ := hmem
      exact Or.inl ⟨q, by simp [hq], h1, h2⟩
    · cases ha : nameToIdx nodes p.1 with
      | none =>
        simp only [ha] at hm0
        exact Or.inr hm0
      | some a =>
        cases hb : nameToIdx nodes p.2 with
        | none =>
          simp only [ha, hb] at hm0
          exact Or.inr hm0
        | some b =>
          simp only [ha, hb] at hm0
          rw [lookupIdx_dictInsert] at hm0
          by_cases hak : a = k
          · rw [if_pos hak] at hm0
            subst hak
            exact Or.inl ⟨p, by simp, ha, by rw [hb]; exact hm0⟩
          · rw [if_neg hak] at hm0
            exact Or.inr hm0

theorem buildMap_lookup {nodes : List (Option String)} {k v : Nat}
    (h : lookupIdx (buildMap nodes) k = some v) :
    ∃ p ∈ BONE_MAP, nameToIdx nodes p.1 = some k ∧ nameToIdx nodes p.2 = some v := by
  rcases buildMap_mem BONE_MAP nodes [] k v h with hm | hm
  · exact hm
  · simp [lookupIdx] at hm

set_option maxRecDepth 4000 in
/-- Every v1 name of `BONE_MAP` that is itself a v2 name maps to itself
(only `root` is both), checked on the concrete table. -/
theorem BONE_MAP_value_key : ∀ p ∈ BONE_MAP, ∀ q ∈ BONE_MAP, p.2 = q.1 → q.2 = q.1 := by
  decide

theorem lookupIdx_buildMap_fix {nodes : List (Option String)} {k v : Nat}
    (h : lookupIdx (buildMap nodes) k = some v) :
    lookupIdx (buildMap nodes) v = none ∨ lookupIdx (buildMap nodes) v = some v := by
  cases hv : lookupIdx (buildMap nodes) v with
  | none => exact Or.inl rfl
  | some c =>
    right
    obtain ⟨p, hp, hp1, hp2⟩ := buildMap_lookup h
    obtain ⟨q, hq, hq1, hq2⟩ := buildMap_lookup hv
    have e : p.2 = q.1 := nameToIdx_inj hp2 hq1
    have e2 : q.2 = q.1 := BONE_MAP_value_key p hp q hq e
    rw [e2, ← e, hp2] at hq2
    exact congrArg some (Option.some.inj hq2).symm

theorem remapChannel_idem (nodes : List (Option String)) (c : Channel) :
    remapChannel (buildMap nodes) (remapChannel (buildMap nodes) c) =
      remapChannel (buildMap nodes) c := by
  cases hc : c.node with
  | none => simp [remapChannel, hc]
  | some k =>
    cases hk : lookupIdx (buildMap nodes) k with
    | none => simp [remapChannel, hc, hk]
    | some v =>
      rcases lookupIdx_buildMap_fix hk with hv | hv
      · simp [remapChannel, hc, hk, hv]
      · simp [remapChannel, hc, hk, hv]

theorem remapChannel_of_not_mem (m : List (Nat × Nat)) (c : Channel)
    (h : memKey m c.node = false) : remapChannel m c = c := by
  cases hc : c.node with
  | none => simp [remapChannel, hc]
  | some k =>
    rw [hc] at h
    cases hk : lookupIdx m k with
    | none => simp [remapChannel, hc, hk]
    | some v =>
      rw [memKey, hk] at h
      simp at h

theorem remapAnim_eq (m : List (Nat × Nat)) (a : Anim) :
    remapAnim m a = ({ a with channels := a.channels.map (remapChannel m) },
      (a.channels.filter (fun c => memKey m c.node)).length) := by
  rw [remapAnim]
  by_cases h : a.channels.any (fun c => memKey m c.node)
  · rw [if_pos h]
  · rw [if_neg h]
    have hall : ∀ c ∈ a.channels, memKey m c.node = false := by
      intro c hc
      by_contra hb
      exact h (List.any_eq_true.mpr ⟨c, hc, by simpa using hb⟩)
    have hmap : a.channels.map (remapChannel m) = a.channels := by
      rw [show a.channels.map (remapChannel m) = a.channels.map id from
        List.map_congr_left (fun c hc => remapChannel_of_not_mem m c (hall c hc))]
      exact List.map_id a.channels
    have hfil : a.channels.filter (fun c => memKey m c.node) = [] := by
      rw [List.filter_eq_nil_iff]
      intro c hc
      simp [hall c hc]
    rw [hmap, hfil]
    rfl

end WasmFantasia

namespace WasmFantasia

set_option maxRecDepth 4000 in
/-- C6: the remapper rewrites exactly the channels whose target index
is a key of the resolved v2-to-v1 index map — the per-animation
`uses_v2_bones` gate is invisible in the result, every unmapped channel
keeps its original target, and the reported count is the number of
channels whose target is a key of the map.  In particular, for nodes
`pelvis, DEF-hips` and one animation with one channel targeting node 0,
remapping retargets that channel to node 1 and reports count 1. -/
theorem c6_remap_channels_exact :
    (∀ d : GlbDoc,
      (remap_animations d).1.nodes = d.nodes ∧
      (remap_animations d).1.animations = d.animations.map (fun a =>
        { a with channels := a.channels.map (remapChannel (buildMap d.nodes)) }) ∧
      (remap_animations d).2 = (d.animations.map (fun a =>
        (a.channels.filter (fun c => memKey (buildMap d.nodes) c.node)).length)).sum) ∧
    remap_animations ⟨[some "pelvis", some "DEF-hips"], [⟨some "Slide", [⟨some 0⟩]⟩]⟩ =
      (⟨[some "pelvis", some "DEF-hips"], [⟨some "Slide", [⟨some 1⟩]⟩]⟩, 1) := by
  constructor
  · intro d
    refine ⟨rfl, ?_, ?_⟩
    · rw [remap_animations]
      simp only [remapAnim_eq]
    · rw [remap_animations]
      simp only [remapAnim_eq]
  · decide

/-- C7: the remap transformation is idempotent — applying it to the
output of a first remap leaves the document (in particular every
channel's target node index) unchanged, because the node list is
untouched, so the second pass resolves the same index map, and every
already-remapped target is either no key of the map or (only for
`root`, the one name that is both a v2 key and a v1 value) mapped to
itself. -/
theorem c7_remap_idempotent (d : GlbDoc) :
    (remap_animations ((remap_animations d).1)).1 = (remap_animations d).1 := by
  simp only [remap_animations, remapAnim_eq]
  congr 1
  rw [List.map_map]
  apply List.map_congr_left
  intro a _
  simp only [Function.comp]
  congr 1
  rw [List.map_map]
  apply List.map_congr_left
  intro c _
  exact remapChannel_idem d.nodes c

end WasmFantasia
